import Mathlib

/-!
Verification of the scrape-and-parse engine of `scrape_class_data.py`
(the `scrape_class_data` function): a shallow embedding of the per-line
field extraction, the record emission, the pagination driver, and the
final one-byte fix-up pass, together with theorems settling the frozen
claims about this code.

Strings are embedded as `List Char`.  Python builtins used by the source
are modelled explicitly:

* `str.replace`  -> `pyReplace`   (left-to-right, non-overlapping)
* `str.split`    -> `pySplit`     (non-empty separator)
* `str.strip " "`-> `pyStripSp`
* `str.rfind`    -> `pyRfind` / `pyRfindWithin` (returns -1 when absent)
* `int(...)`     -> `pyInt`   (ASCII digits, optional sign, underscore
                               grouping; `Option.none` models `ValueError`)
* `s[::-1]`      -> `List.reverse`, `s[:-k]` -> `take (length - k)`,
  `s[k:]` -> `drop k`

`pyReplace` and `pySplit` advance by the pattern length on a match, so
they are written with an explicit fuel argument (initialised to the
length of the string, which is always sufficient) to keep structural
recursion; the fuel-exhausted branches are unreachable.
-/

set_option maxRecDepth 8000

namespace ClassScrape

/-- Occurrence test: Python's `pat in ln`. -/
def hasSub : List Char → List Char → Bool
  | [], pat => pat.isEmpty
  | c :: rest, pat => pat.isPrefixOf (c :: rest) || hasSub rest pat

/-- Python `str.replace pat rep`, fuelled.  On a match the scan jumps
over the matched occurrence; otherwise it advances one character. -/
def pyReplaceFuel (pat rep : List Char) : Nat → List Char → List Char
  | _, [] => []
  | 0, s => s
  | fuel + 1, c :: rest =>
    if !pat.isEmpty && pat.isPrefixOf (c :: rest) then
      rep ++ pyReplaceFuel pat rep fuel (List.drop pat.length (c :: rest))
    else
      c :: pyReplaceFuel pat rep fuel rest

/-- Python `str.replace` (all occurrences, left to right). -/
def pyReplace (pat rep s : List Char) : List Char :=
  pyReplaceFuel pat rep s.length s

/-- Python `str.split sep` for a non-empty separator, fuelled. -/
def pySplitFuel (sep : List Char) : Nat → List Char → List (List Char)
  | _, [] => [[]]
  | 0, s => [s]
  | fuel + 1, c :: rest =>
    if !sep.isEmpty && sep.isPrefixOf (c :: rest) then
      [] :: pySplitFuel sep fuel (List.drop sep.length (c :: rest))
    else
      match pySplitFuel sep fuel rest with
      | [] => [[c]]
      | chunk :: more => (c :: chunk) :: more

/-- Python `str.split sep`. -/
def pySplit (sep s : List Char) : List (List Char) :=
  pySplitFuel sep s.length s

/-- Python `str.strip " "` (spaces only, both ends), as the source uses. -/
def pyStripSp (s : List Char) : List Char :=
  ((s.dropWhile (fun c => c == ' ')).reverse.dropWhile (fun c => c == ' ')).reverse

/-- ASCII whitespace stripped by Python's `int`. -/
def isPyWs (c : Char) : Bool :=
  c == ' ' || c == '\t' || c == '\n' || c == '\r' || c == '\x0b' || c == '\x0c'

/-- Strip whitespace at both ends (as `int` does before parsing). -/
def pyStripWs (s : List Char) : List Char :=
  ((s.dropWhile isPyWs).reverse.dropWhile isPyWs).reverse

/-- Digit body of a Python integer literal: non-empty digits with single
underscores allowed between digits. -/
def intBodyOk : List Char → Bool
  | [] => false
  | [c] => c.isDigit
  | c :: '_' :: rest => c.isDigit && intBodyOk rest
  | c :: rest => c.isDigit && intBodyOk rest

/-- Numeric value of a digit body (underscores skipped). -/
def digitsVal (s : List Char) : Int :=
  s.foldl (fun acc c => if c == '_' then acc else acc * 10 + Int.ofNat (c.toNat - 48)) 0

/-- Python `int(s)` for ASCII input; `Option.none` models `ValueError`. -/
def pyInt (s : List Char) : Option Int :=
  match pyStripWs s with
  | '-' :: rest => if intBodyOk rest then some (-(digitsVal rest)) else Option.none
  | '+' :: rest => if intBodyOk rest then some (digitsVal rest) else Option.none
  | t => if intBodyOk t then some (digitsVal t) else Option.none

/-- Python `s.rfind pat`: the greatest start index of an occurrence of
`pat` in `s`, or `-1` when there is none. -/
def pyRfind (s pat : List Char) : Int :=
  match (List.range (s.length + 1)).reverse.find? (fun i => pat.isPrefixOf (s.drop i)) with
  | some i => Int.ofNat i
  | Option.none => -1

/-- Python `s.rfind pat 0 endB`: like `pyRfind` but the occurrence must
end at or before `endB` (a negative `endB` counts from the end, as in
Python slicing). -/
def pyRfindWithin (s pat : List Char) (endB : Int) : Int :=
  let e : Int := if endB < 0 then endB + (s.length : Int) else endB
  let eN : Nat := (max e 0).toNat
  match (List.range (s.length + 1)).reverse.find?
      (fun i => decide (i + pat.length ≤ eN) && pat.isPrefixOf (s.drop i)) with
  | some i => Int.ofNat i
  | Option.none => -1

/-- The source's manual backward scan
`for i in range(start, 0, -1): if ln[i] == stop: break; s += ln[i]`,
returning the collected characters in scan (reversed) order; the
argument is the current index, counting down to 1 (index 0 is never
inspected, exactly as `range(_, 0, -1)` never yields 0). -/
def backAux (ln : List Char) (stop : Char) : Nat → List Char
  | 0 => []
  | i + 1 =>
    if ln.getD (i + 1) '\x00' = stop then []
    else ln.getD (i + 1) '\x00' :: backAux ln stop i

/-- The backward scan started just before marker position `pos`
(`pos = -1` models a failed `rfind`, giving an empty range). -/
def backScan (ln : List Char) (stop : Char) (pos : Int) : List Char :=
  match pos with
  | Int.ofNat n => backAux ln stop (n - 1)
  | Int.negSucc _ => []

/-! Markup fragments the source tests with `in` / passes to `rfind`. -/

def progressMark : List Char := "</b> - <b>".toList
def headingMark : List Char := "<div class=\"panel-heading panel-heading-custom\">".toList
def numberMark : List Char := "Class Number:".toList
def instructorMark : List Char := "Instructor:".toList
def locationMark : List Char := "Location:".toList
def dayTimeMark : List Char := "Day and Time:".toList
def modeMark : List Char := "Instruction Mode:".toList
def tagB : List Char := "</b>".toList
def tagA : List Char := "</a>".toList
def tagDiv : List Char := "</div>".toList
def brMark : List Char := "<br>".toList
def tripleNbsp : List Char := "&nbsp;&nbsp;&nbsp;".toList
def nbspStr : List Char := "&nbsp;".toList
def cancelPair : List Char := "Cancelled Cancelled".toList
def cancelOne : List Char := "Cancelled".toList

/-- `.replace("Cancelled Cancelled", "Cancelled")` from the DayTime branch. -/
def cancelNorm (s : List Char) : List Char :=
  pyReplace cancelPair cancelOne s

/-- Classified content of one line, as extracted by the branch bodies of
the scrape loop.  `valueError` records that the Python code would raise
(`int()` on a non-numeric string, or unpacking a split that does not
have exactly two parts); `inert` is a line matching no branch. -/
inductive Field where
  | progress (current total : Int)
  | heading (code name : List Char)
  | number (num : List Char)
  | instructors (entries : List (List Char))
  | location (loc : List Char)
  | dayTime (times : List (List Char))
  | mode (m : List Char)
  | inert
  | valueError
deriving DecidableEq, Repr

/-- Extraction + trim of the Location branch before the length fix-up
(`s[::-1].strip(" ")` scanned back from `rfind("</div>")`). -/
def locTrimmed (ln : List Char) : List Char :=
  pyStripSp (backScan ln '>' (pyRfind ln tagDiv)).reverse

/-- The line classifier: the source's chain of `if ... in ln` branches,
in source order, each performing its extraction and normalization. -/
def classifyLine (ln : List Char) : Field :=
  if hasSub ln progressMark then
    -- total from the rightmost "</b>", current from the one before it
    let sT := backScan ln '>' (pyRfind ln tagB)
    let sC := backScan ln '>' (pyRfindWithin ln tagB (pyRfind ln tagB))
    match pyInt sT.reverse, pyInt sC.reverse with
    | some t, some c => Field.progress c t
    | _, _ => Field.valueError
  else if hasSub ln headingMark then
    let s := backScan ln '>' (pyRfind ln tagA)
    match pySplit tripleNbsp s.reverse with
    | [c0, n0] =>
        Field.heading (pyReplace (" ").toList [] c0) (pyReplace ("&amp;").toList ("&").toList n0)
    | _ => Field.valueError
  else if hasSub ln numberMark then
    Field.number (backScan ln '>' (pyRfind ln tagA)).reverse
  else if hasSub ln instructorMark then
    let s := backScan ln '/' (pyRfind ln tagDiv)
    let s2 := s.take (s.length - 3)
    Field.instructors (pySplit brMark s2.reverse)
  else if hasSub ln locationMark then
    let t := locTrimmed ln
    Field.location (if t.length = 3 then [] else t.drop 5)
  else if hasSub ln dayTimeMark then
    let s := backScan ln '/' (pyRfind ln tagDiv)
    let s2 := s.take (s.length - 2)
    Field.dayTime (pySplit brMark (cancelNorm (pyReplace nbspStr [] (pyStripSp s2.reverse))))
  else if hasSub ln modeMark then
    Field.mode (backScan ln '>' (pyRfind ln tagB)).reverse
  else Field.inert

/-! Text emitted to the output file by each branch (braces written with
`\x7b`/`\x7d` escapes). -/

def headingEmit (code name : List Char) : List Char :=
  ("        \x7b\n            \"code\": \"").toList ++ code ++
  ("\",\n            \"name\": \"").toList ++ name ++ ("\",\n").toList

def numberEmit (num : List Char) : List Char :=
  ("            \"number\": ").toList ++ num ++ (",\n").toList

def instrClose : List Char :=
  ("\n            ],\n            \"meetings\": [\n").toList

/-- The enumerate/break loop of the Instructors branch: every entry but
the last is followed by `",\n"`, the last by the list close. -/
def instrEntries : List (List Char) → List Char
  | [] => []
  | [e] => ("                \"").toList ++ e ++ ("\"").toList ++ instrClose
  | e :: rest => ("                \"").toList ++ e ++ ("\",\n").toList ++ instrEntries rest

def instrEmit (entries : List (List Char)) : List Char :=
  ("            \"instructors\": [\n").toList ++ instrEntries entries

def locEmit (loc : List Char) : List Char :=
  ("                [\n                    \"").toList ++ loc ++ ("\",\n").toList

def oneTimeEmit (t : List Char) : List Char :=
  ("                    \"").toList ++ t ++ ("\"\n                ]").toList

def twoTimesEmit (t0 t1 : List Char) : List Char :=
  ("                    \"").toList ++ t0 ++ ("\",\n                    \"").toList ++
  t1 ++ ("\"\n                ]").toList

def modeEmit (now m : List Char) : List Char :=
  ("            ],\n            \"mode\": \"").toList ++ m ++ ("\",\n").toList ++
  ("            \"last_updated\": \"").toList ++ now ++ ("\"\n        \x7d,\n").toList

/-- Per-run mutable state of the scrape loop: the pagination flag, the
`require_comma` punctuation flag, and the text written to the file after
the fixed header. -/
structure ScanState where
  keepRequesting : Bool
  requireComma : Bool
  out : List Char
deriving DecidableEq, Repr

def initState : ScanState := ⟨true, false, []⟩

/-- Errors that abort the run: a Python exception from a branch body, or
a non-200 HTTP response (status and reason); `starved` is a model
artifact for a scripted feed with no response left. -/
inductive RunErr where
  | pyExn
  | http (status : Nat) (reason : List Char)
  | starved
deriving DecidableEq, Repr

/-- State/output effect of one classified field, exactly the print and
flag statements of the corresponding source branch. -/
def applyField (now : List Char) : Field → ScanState → Except RunErr ScanState
  | Field.valueError, _ => Except.error RunErr.pyExn
  | Field.inert, st => Except.ok st
  | Field.progress c t, st =>
      Except.ok (if t ≤ c then { st with keepRequesting := false } else st)
  | Field.heading code name, st =>
      Except.ok { st with out := st.out ++ headingEmit code name }
  | Field.number num, st =>
      Except.ok { st with out := st.out ++ numberEmit num }
  | Field.instructors entries, st =>
      Except.ok { st with out := st.out ++ instrEmit entries }
  | Field.location loc, st =>
      Except.ok { st with
        out := st.out ++ (if st.requireComma then (",\n").toList else []) ++ locEmit loc }
  | Field.dayTime times, st =>
      match times with
      | [] => Except.error RunErr.pyExn   -- times[0] would raise IndexError (unreachable)
      | [t] => Except.ok { st with requireComma := true, out := st.out ++ oneTimeEmit t }
      | t0 :: t1 :: _ =>
          Except.ok { st with requireComma := true, out := st.out ++ twoTimesEmit t0 t1 }
  | Field.mode m, st =>
      if st.requireComma then
        Except.ok { st with
            requireComma := false,
            out := st.out ++ ("\n").toList ++ modeEmit now m }
      else
        Except.ok { st with out := st.out ++ modeEmit now m }

/-- One iteration of the `for line in res.iter_lines()` body. -/
def processLine (now ln : List Char) (st : ScanState) : Except RunErr ScanState :=
  applyField now (classifyLine ln) st

/-- The whole per-page line loop; an exception stops it, keeping the
output written by the preceding lines. -/
def processLines (now : List Char) : List (List Char) → ScanState → ScanState × Option RunErr
  | [], st => (st, Option.none)
  | ln :: rest, st =>
    match processLine now ln st with
    | Except.ok st' => processLines now rest st'
    | Except.error e => (st, some e)

/-- The varying part of the request payload (the filter fields and
`rec_dur = 100` are constant for the whole run). -/
structure Payload where
  action : List Char
  recStart : Nat
deriving DecidableEq, Repr

/-- `payload` as first built: `action = 'update_segment'`, `rec_start = 0`. -/
def initPayload : Payload := ⟨("update_segment").toList, 0⟩

/-- The end-of-page payload update:
`rec_start += 100; if action != "next": action = "next"; rec_start = 0`. -/
def nextPayload (p : Payload) : Payload :=
  let p1 : Payload := { p with recStart := p.recStart + 100 }
  if p1.action ≠ ("next").toList then ⟨("next").toList, 0⟩ else p1

/-- Payload carried by request number `k` (0-based). -/
def payloadAt (k : Nat) : Payload := nextPayload^[k] initPayload

/-- One scripted HTTP response: status code, reason phrase, body lines. -/
structure Response where
  status : Nat
  reason : List Char
  lines : List (List Char)
deriving DecidableEq, Repr

/-- Result of the pagination loop: an optional abort error, the final
scan state, and the payloads of the requests issued (in order). -/
structure DriveOut where
  err : Option RunErr
  st : ScanState
  sent : List Payload
deriving DecidableEq, Repr

/-- The `while keep_requesting` loop over a scripted list of responses:
checks the flag, issues the request, checks the status, processes the
page's lines, updates the payload, and loops. -/
def drive (now : List Char) : List Response → ScanState → Payload → DriveOut
  | [], st, _ =>
    if st.keepRequesting then ⟨some RunErr.starved, st, []⟩ else ⟨Option.none, st, []⟩
  | r :: rest, st, p =>
    if st.keepRequesting = false then ⟨Option.none, st, []⟩
    else if r.status ≠ 200 then ⟨some (RunErr.http r.status r.reason), st, [p]⟩
    else
      match processLines now r.lines st with
      | (st', some e) => ⟨some e, st', [p]⟩
      | (st', Option.none) =>
        let d := drive now rest st' (nextPayload p)
        ⟨d.err, d.st, p :: d.sent⟩

/-- Text printed before the loop. -/
def headerText : List Char := ("\x7b\n    \"classes\": [\n").toList

/-- Text printed after the loop (`print` appends a final newline). -/
def footerText : List Char := ("    ]\n\x7d\n").toList

/-- The final corrective pass: reopen in binary mode, `seek(-10, 2)`,
overwrite one byte with a space. -/
def fixup (doc : List Char) : List Char :=
  doc.set (doc.length - 10) ' '

/-- A whole run: file content, abort error (if any), requests issued. -/
structure RunOut where
  fileContent : List Char
  err : Option RunErr
  requests : Nat
deriving DecidableEq, Repr

/-- `scrape_class_data` against a scripted feed: on success the file
holds header, body and footer with the one-byte fix-up applied; on an
abort the exception propagates and the file keeps whatever was written,
with neither footer nor fix-up. -/
def scrapeRun (now : List Char) (pages : List Response) : RunOut :=
  let d := drive now pages initState initPayload
  match d.err with
  | Option.none => ⟨fixup (headerText ++ d.st.out ++ footerText), Option.none, d.sent.length⟩
  | some e => ⟨headerText ++ d.st.out, some e, d.sent.length⟩

/-- Bracket balance of a document, skipping the contents of double-quoted
strings: a necessary condition for the emitted text to be a well-formed
JSON document (none of the checked documents contain escaped quotes).
Used to witness well-formedness or ill-formedness of concrete outputs. -/
def scanBal : Bool → List Char → List Char → Bool
  | inStr, stack, [] => !inStr && stack.isEmpty
  | true, stack, c :: rest =>
    if c = '"' then scanBal false stack rest else scanBal true stack rest
  | false, stack, c :: rest =>
    if c = '"' then scanBal true stack rest
    else if c = '\x7b' || c = '[' then scanBal false (c :: stack) rest
    else if c = '\x7d' then
      match stack with
      | '\x7b' :: s => scanBal false s rest
      | _ => false
    else if c = ']' then
      match stack with
      | '[' :: s => scanBal false s rest
      | _ => false
    else scanBal false stack rest

def specBalanced (doc : List Char) : Bool := scanBal false [] doc

/-! Concrete sample lines (shapes seen in the real feed) used by
witnesses and counterexamples. -/

def demoNow : List Char := ("2023-01-01 00:00:00").toList
def hLn : List Char :=
  ("<div class=\"panel-heading panel-heading-custom\"><a>CSE115A&nbsp;&nbsp;&nbsp;Intro Software Eng</a></div>").toList
def nLn : List Char := ("Class Number: <a>12345</a>").toList
def iLn : List Char := ("<b>Instructor:</b> Staff<br>Jullig,R.K.</div>").toList
def lLn : List Char := ("<b>Location:</b> LEC: Kresge Clrm 327</div>").toList
def sLn : List Char := ("<b>Location:</b> SEM</div>").toList
def dLn : List Char :=
  ("<b>Day and Time:</b> MWF 09:20AM-10:25AM<br>TuTh 01:00PM-02:05PM</div>").toList
def mLn : List Char := ("<b>Instruction Mode:</b> <b>In Person</b></div>").toList
def pLnDone : List Char := ("<b>1</b> - <b>1</b>").toList
def pLnEmpty : List Char := ("<b>0</b> - <b>0</b>").toList
def cexProgressLine : List Char := ("ab</b> - <b>").toList
def demoRecordPage : Response := ⟨200, ("OK").toList, [pLnDone, hLn, nLn, iLn, lLn, dLn, mLn]⟩
def demoEmptyPage : Response := ⟨200, ("OK").toList, [pLnEmpty]⟩
def demoBadPage : Response := ⟨500, ("Internal Server Error").toList, []⟩
def demoProgPage1 : Response := ⟨200, ("OK").toList, [("<b>100</b> - <b>300</b>").toList]⟩
def demoProgPage2 : Response := ⟨200, ("OK").toList, [("<b>200</b> - <b>300</b>").toList]⟩
def demoProgPage3 : Response := ⟨200, ("OK").toList, [("<b>300</b> - <b>300</b>").toList]⟩

/-! General lemmas about the embedded Python primitives. -/

/-- A string without any occurrence of `pat` is left unchanged by
`pyReplaceFuel`, for every fuel value. -/
lemma pyReplaceFuel_id (pat rep : List Char) :
    ∀ (s : List Char) (fuel : Nat), hasSub s pat = false →
      pyReplaceFuel pat rep fuel s = s
  | [], fuel, _ => by cases fuel <;> rfl
  | _ :: _, 0, _ => rfl
  | c :: rest, fuel + 1, h => by
    have hsplit : pat.isPrefixOf (c :: rest) = false ∧ hasSub rest pat = false := by
      simpa [hasSub] using h
    simp [pyReplaceFuel, hsplit.1, pyReplaceFuel_id pat rep rest fuel hsplit.2]

/-- `pyReplace` fixes any string in which the pattern does not occur. -/
lemma pyReplace_id (pat rep s : List Char) (h : hasSub s pat = false) :
    pyReplace pat rep s = s :=
  pyReplaceFuel_id pat rep s s.length h

/-- Claim C7, counterexample.  The normalization
`.replace("Cancelled Cancelled", "Cancelled")` is NOT idempotent on
three consecutive repetitions: a single left-to-right pass over
`"Cancelled Cancelled Cancelled"` collapses the first two copies and
leaves `"Cancelled Cancelled"`, so a second pass still changes the
string.  This falsifies the claim as stated (which asserts idempotence
for all inputs, including three or more repetitions). -/
theorem cancel_norm_not_idempotent_cex :
    cancelNorm (("Cancelled Cancelled Cancelled").toList) = ("Cancelled Cancelled").toList ∧
    cancelNorm (cancelNorm (("Cancelled Cancelled Cancelled").toList)) = ("Cancelled").toList ∧
    cancelNorm (cancelNorm (("Cancelled Cancelled Cancelled").toList)) ≠
      cancelNorm (("Cancelled Cancelled Cancelled").toList) := by
  refine ⟨by decide, by decide, by decide⟩

/-- Claim C7, amended.  The normalization is a single left-to-right
non-overlapping replacement pass; applying it twice equals applying it
once exactly when the first pass's result no longer contains the
literal `"Cancelled Cancelled"` (in particular on the input
`"Cancelled Cancelled"` itself, which normalizes stably to
`"Cancelled"`), but not for all inputs. -/
theorem cancel_norm_idempotent_when_collapsed (s : List Char)
    (h : hasSub (cancelNorm s) cancelPair = false) :
    cancelNorm (cancelNorm s) = cancelNorm s :=
  pyReplace_id cancelPair cancelOne (cancelNorm s) h

theorem cancel_norm_idempotent_when_collapsed_witness :
    cancelNorm (cancelNorm (("Cancelled Cancelled").toList)) =
      cancelNorm (("Cancelled Cancelled").toList) :=
  cancel_norm_idempotent_when_collapsed (("Cancelled Cancelled").toList) (by decide)

/-- Claim C10.  When the DayTime split yields three or more time
strings, the branch writes exactly the first two into the current
meeting entry and drops the rest without error: the result is `ok`, and
the emitted text depends only on the first two times (the variables
`t2` and `rest` do not occur on the right-hand side). -/
theorem daytime_extra_times_dropped (now : List Char) (st : ScanState)
    (t0 t1 t2 : List Char) (rest : List (List Char)) :
    applyField now (Field.dayTime (t0 :: t1 :: t2 :: rest)) st =
      Except.ok { st with requireComma := true, out := st.out ++ twoTimesEmit t0 t1 } :=
  rfl

/-- Claim C1, counterexample.  Processing a Location line followed by a
two-time DayTime line (from a fresh record, `require_comma` unset)
appends ONE bracketed meeting entry holding THREE strings
(`[location, time0, time1]`), not two two-string entries: the appended
text contains exactly one `'['` (each meeting entry in the emitted
document opens with one `'['`, as the one-time case shows) and six
`'"'` (three quoted strings), where two (location, time) pairs would
open two brackets and quote four strings. -/
theorem two_time_block_two_pairs_cex :
    processLines demoNow [lLn, dLn] initState =
      ({ keepRequesting := true, requireComma := true,
         out := locEmit (("Kresge Clrm 327").toList) ++
           twoTimesEmit (("MWF 09:20AM-10:25AM").toList) (("TuTh 01:00PM-02:05PM").toList) },
       Option.none) ∧
    (locEmit (("Kresge Clrm 327").toList) ++
      twoTimesEmit (("MWF 09:20AM-10:25AM").toList) (("TuTh 01:00PM-02:05PM").toList)).count '[' = 1 ∧
    ¬(locEmit (("Kresge Clrm 327").toList) ++
      twoTimesEmit (("MWF 09:20AM-10:25AM").toList) (("TuTh 01:00PM-02:05PM").toList)).count '[' = 2 := by
  refine ⟨by decide, by decide, by decide⟩

/-- Claim C1, amended.  For every well-formed DayTime block with two
time strings, the code appends exactly ONE meeting entry to the current
record's meetings list: a single array pairing the shared location with
BOTH time strings, `[location, time0, time1]`.  (The downstream loader
reads such length-3 entries as two location/time pairs.)  Stated for an
arbitrary accumulator state `st`: the Location branch opens the entry,
the DayTime branch closes it, and — when location and times contain no
bracket — the full appended entry text contains exactly one `'['`. -/
theorem two_time_block_appends_one_triple (now : List Char) (st : ScanState)
    (loc t0 t1 : List Char) (ts : List (List Char))
    (hl : loc.count '[' = 0) (h0 : t0.count '[' = 0) (h1 : t1.count '[' = 0) :
    (applyField now (Field.location loc) st = Except.ok { st with
        out := st.out ++ (if st.requireComma then (",\n").toList else []) ++ locEmit loc }) ∧
    (applyField now (Field.dayTime (t0 :: t1 :: ts)) { st with
        out := st.out ++ (if st.requireComma then (",\n").toList else []) ++ locEmit loc } =
      Except.ok { st with
        requireComma := true,
        out := st.out ++ (if st.requireComma then (",\n").toList else []) ++
          locEmit loc ++ twoTimesEmit t0 t1 }) ∧
    (locEmit loc ++ twoTimesEmit t0 t1).count '[' = 1 := by
  refine ⟨rfl, by simp [applyField], ?_⟩
  simp [locEmit, twoTimesEmit, List.count_append, hl, h0, h1]

theorem two_time_block_appends_one_triple_witness :
    (applyField demoNow (Field.location (("Kresge Clrm 327").toList)) initState =
      Except.ok { initState with
        out := initState.out ++ (if initState.requireComma then (",\n").toList else []) ++
          locEmit (("Kresge Clrm 327").toList) }) ∧
    (applyField demoNow
        (Field.dayTime [("MWF 09:20AM-10:25AM").toList, ("TuTh 01:00PM-02:05PM").toList])
        { initState with
          out := initState.out ++ (if initState.requireComma then (",\n").toList else []) ++
            locEmit (("Kresge Clrm 327").toList) } =
      Except.ok { initState with
        requireComma := true,
        out := initState.out ++ (if initState.requireComma then (",\n").toList else []) ++
          locEmit (("Kresge Clrm 327").toList) ++
          twoTimesEmit (("MWF 09:20AM-10:25AM").toList) (("TuTh 01:00PM-02:05PM").toList) }) ∧
    (locEmit (("Kresge Clrm 327").toList) ++
      twoTimesEmit (("MWF 09:20AM-10:25AM").toList) (("TuTh 01:00PM-02:05PM").toList)).count '[' = 1 :=
  two_time_block_appends_one_triple demoNow initState (("Kresge Clrm 327").toList)
    (("MWF 09:20AM-10:25AM").toList) (("TuTh 01:00PM-02:05PM").toList) []
    (by decide) (by decide) (by decide)

/-- Claim C2, counterexample.  A Number field arriving first — before
any Heading, an order the spec's state machine disallows — is processed
without any error and its field text is emitted immediately: the run
returns `Option.none` (no fatal error) and the out-of-order field
appears in the output, falsifying "fails with a fatal error rather than
silently dropping, reordering, or emitting the out-of-order field". -/
theorem out_of_order_number_emitted_cex :
    processLines demoNow [nLn] initState =
      ({ keepRequesting := true, requireComma := false,
         out := ("            \"number\": 12345,\n").toList }, Option.none) := by
  decide

/-- Claim C2, amended.  The code keeps no field-order state at all:
every branch fires purely on its own substring guard, so a recognized
field line is processed successfully and emitted in arrival order
regardless of the accumulator state `st` (shown here for a Number line,
the claim's canonical out-of-order field: for EVERY state it yields
`ok` and appends exactly the number text). -/
theorem field_processing_ignores_order (now ln : List Char) (st : ScanState)
    (h1 : hasSub ln progressMark = false) (h2 : hasSub ln headingMark = false)
    (h3 : hasSub ln numberMark = true) :
    processLine now ln st =
      Except.ok { st with
        out := st.out ++ numberEmit (backScan ln '>' (pyRfind ln tagA)).reverse } := by
  unfold processLine classifyLine
  simp [h1, h2, h3, applyField]

theorem field_processing_ignores_order_witness :
    processLine demoNow nLn initState =
      Except.ok { initState with
        out := initState.out ++ numberEmit (backScan nLn '>' (pyRfind nLn tagA)).reverse } :=
  field_processing_ignores_order demoNow nLn initState (by decide) (by decide) (by decide)

/-- When the stop character does not occur among indices `1..n`, the
backward scan never breaks: it collects exactly the characters at
indices `1..n` (in scan order, i.e. reversed); index 0 is never
visited. -/
lemma backAux_no_stop (ln : List Char) (stop : Char) :
    ∀ n : Nat, n < ln.length → stop ∉ (ln.take (n + 1)).drop 1 →
      backAux ln stop n = ((ln.take (n + 1)).drop 1).reverse := by
  intro n
  induction n with
  | zero =>
    intro h _
    rcases ln with _ | ⟨c, rest⟩
    · rfl
    · rfl
  | succ n ih =>
    intro hlt habs
    have hn : n < ln.length := Nat.lt_of_succ_lt hlt
    have hget : ln[n + 1]? = some ln[n + 1] := List.getElem?_eq_getElem hlt
    have htake : ln.take (n + 2) = ln.take (n + 1) ++ [ln[n + 1]] := by
      rw [List.take_succ, hget]
      rfl
    have hlen1 : 1 ≤ (ln.take (n + 1)).length := by
      rw [List.length_take]
      omega
    have hdrop : (ln.take (n + 2)).drop 1 =
        (ln.take (n + 1)).drop 1 ++ [ln[n + 1]] := by
      rw [htake, List.drop_append_of_le_length hlen1]
    rw [hdrop] at habs
    have hne : ln[n + 1] ≠ stop := by
      intro h
      exact habs (List.mem_append_right _ (List.mem_singleton.mpr h.symm))
    have habs' : stop ∉ (ln.take (n + 1)).drop 1 :=
      fun h => habs (List.mem_append_left _ h)
    have hgetD : ln.getD (n + 1) '\x00' = ln[n + 1] := by
      rw [List.getD_eq_getD_get?, List.get?_eq_getElem?, hget]
      rfl
    rw [hdrop, List.reverse_append]
    show (if ln.getD (n + 1) '\x00' = stop then []
      else ln.getD (n + 1) '\x00' :: backAux ln stop n) = _
    rw [hgetD, if_neg hne, ih hn habs']
    rfl

/-- Claim C3, counterexample.  On the line `"ab</b> - <b>"` the Progress
end marker `"</b>"` is present but no `'>'` precedes it; the extractor
does NOT yield the empty result (it collects the residue `"b"`, every
character from index 1 up to the marker), and the run does NOT
continue: parsing that residue as an integer raises, which is fatal. -/
theorem missing_start_marker_progress_fatal_cex :
    hasSub cexProgressLine progressMark = true ∧
    (backScan cexProgressLine '>' (pyRfind cexProgressLine tagB)).reverse = [ 'b' ] ∧
    (backScan cexProgressLine '>' (pyRfind cexProgressLine tagB)).reverse ≠ [] ∧
    classifyLine cexProgressLine = Field.valueError ∧
    processLines demoNow [cexProgressLine] initState = (initState, some RunErr.pyExn) := by
  refine ⟨by decide, by decide, by decide, by decide, by decide⟩

/-- Claim C3, amended.  When the start marker is not found before the
end marker, the backward scan does not yield the empty result: started
just before marker position `m` it collects every character of the line
from index 1 up to `m - 1` (index 0 is excluded by the `range(_, 0, -1)`
bound), i.e. returns the segment `(take m).drop 1` reversed — empty only
when `m ≤ 1`.  For a Progress line this non-numeric residue is then fed
to `int()`, which raises a fatal error rather than being skipped (shown
closed on `"ab</b> - <b>"`). -/
theorem missing_start_marker_residue (ln : List Char) (stop : Char) (m : Nat)
    (hm : m ≤ ln.length) (habs : stop ∉ (ln.take m).drop 1) :
    backScan ln stop (Int.ofNat m) = ((ln.take m).drop 1).reverse ∧
    processLines demoNow [cexProgressLine] initState = (initState, some RunErr.pyExn) := by
  refine ⟨?_, by decide⟩
  show backAux ln stop (m - 1) = _
  rcases m with _ | n
  · simp [backAux]
  · exact backAux_no_stop ln stop n (by omega) habs

theorem missing_start_marker_residue_witness :
    backScan cexProgressLine '>' (Int.ofNat 2) =
      ((cexProgressLine.take 2).drop 1).reverse ∧
    processLines demoNow [cexProgressLine] initState = (initState, some RunErr.pyExn) :=
  missing_start_marker_residue cexProgressLine '>' 2 (by decide) (by decide)

/-- Claim C8.  For a line that reaches the Location branch, the emitted
location is determined by the extracted, space-trimmed string
`locTrimmed ln`: length exactly 3 gives the empty string, any other
length gives the string with its first 5 characters removed (for
lengths below 5, Python's `location[5:]` — embedded as `drop 5` — is
empty as well). -/
theorem location_length_rule (ln : List Char)
    (h1 : hasSub ln progressMark = false) (h2 : hasSub ln headingMark = false)
    (h3 : hasSub ln numberMark = false) (h4 : hasSub ln instructorMark = false)
    (h5 : hasSub ln locationMark = true) :
    classifyLine ln =
      Field.location (if (locTrimmed ln).length = 3 then [] else (locTrimmed ln).drop 5) ∧
    ((locTrimmed ln).length = 3 → classifyLine ln = Field.location []) ∧
    ((locTrimmed ln).length ≠ 3 →
      classifyLine ln = Field.location ((locTrimmed ln).drop 5)) := by
  have base : classifyLine ln =
      Field.location (if (locTrimmed ln).length = 3 then [] else (locTrimmed ln).drop 5) := by
    unfold classifyLine
    simp [h1, h2, h3, h4, h5]
  refine ⟨base, fun h => ?_, fun h => ?_⟩
  · rw [base, if_pos h]
  · rw [base, if_neg h]

theorem location_length_rule_witness :
    classifyLine lLn = Field.location (("Kresge Clrm 327").toList) ∧
    classifyLine sLn = Field.location [] := by
  constructor
  · exact ((location_length_rule lLn (by decide) (by decide) (by decide) (by decide)
      (by decide)).1).trans (by decide)
  · exact ((location_length_rule sLn (by decide) (by decide) (by decide) (by decide)
      (by decide)).1).trans (by decide)

/-- A run whose flag is already cleared issues no request at all. -/
lemma drive_not_keep (now : List Char) (pages : List Response) (st : ScanState)
    (p : Payload) (h : st.keepRequesting = false) :
    drive now pages st p = ⟨Option.none, st, []⟩ := by
  cases pages <;> simp [drive, h]

/-- Claim C4.  Whatever state the run has reached, a response with a
non-200 status makes the loop raise immediately, carrying the status
and reason: the failing request is the last one issued (`sent = [p]`),
no line of the bad response is processed (`st` unchanged), and — shown
on a concrete run — the caller sees the error while the file keeps only
what was already written, with neither footer nor one-byte fix-up
applied (the remaining content is not a well-formed document). -/
theorem http_error_aborts_run (now : List Char) (st : ScanState) (p : Payload)
    (page : Response) (rest : List Response)
    (hkeep : st.keepRequesting = true) (hbad : page.status ≠ 200) :
    drive now (page :: rest) st p =
      ⟨some (RunErr.http page.status page.reason), st, [p]⟩ ∧
    scrapeRun demoNow [demoBadPage] =
      ⟨headerText, some (RunErr.http 500 (("Internal Server Error").toList)), 1⟩ ∧
    specBalanced headerText = false := by
  refine ⟨?_, by decide, by decide⟩
  simp [drive, hkeep, hbad]

theorem http_error_aborts_run_witness :
    drive demoNow [demoBadPage] initState initPayload =
      ⟨some (RunErr.http demoBadPage.status demoBadPage.reason), initState, [initPayload]⟩ ∧
    scrapeRun demoNow [demoBadPage] =
      ⟨headerText, some (RunErr.http 500 (("Internal Server Error").toList)), 1⟩ ∧
    specBalanced headerText = false :=
  http_error_aborts_run demoNow initState initPayload demoBadPage [] (by decide) (by decide)

/-- The payloads sent by the loop are successive `nextPayload` iterates
of the payload it starts from. -/
lemma drive_sent_iterates (now : List Char) :
    ∀ (pages : List Response) (st : ScanState) (p : Payload),
      (drive now pages st p).sent =
        (List.range (drive now pages st p).sent.length).map (fun i => nextPayload^[i] p) := by
  intro pages
  induction pages with
  | nil =>
    intro st p
    by_cases h : st.keepRequesting <;> simp [drive, h]
  | cons r rest ih =>
    intro st p
    by_cases hk : st.keepRequesting = false
    · simp [drive, hk]
    · by_cases hs : r.status = 200
      · rcases hpr : processLines now r.lines st with ⟨st', e⟩
        rcases e with _ | err
        · have : drive now (r :: rest) st p =
              ⟨(drive now rest st' (nextPayload p)).err,
               (drive now rest st' (nextPayload p)).st,
               p :: (drive now rest st' (nextPayload p)).sent⟩ := by
            simp [drive, hk, hs, hpr]
          rw [this]
          have ihr := ih st' (nextPayload p)
          show p :: (drive now rest st' (nextPayload p)).sent =
            (List.range ((p :: (drive now rest st' (nextPayload p)).sent).length)).map
              (fun i => nextPayload^[i] p)
          rw [List.length_cons, List.range_succ_eq_map]
          simp only [List.map_cons, Function.iterate_zero, id_eq, List.map_map]
          exact congrArg (List.cons p) ihr
        · simp [drive, hk, hs, hpr, List.range_succ]
      · simp [drive, hk, hs, List.range_succ]

/-- Request number `n + 1` (0-based) always carries the "next" action
with offset `n * 100`: the offset resets to 0 exactly once, on the
transition out of the initial action, then grows by the page size. -/
lemma payloadAt_succ : ∀ n : Nat, payloadAt (n + 1) = ⟨("next").toList, n * 100⟩ := by
  intro n
  induction n with
  | zero => decide
  | succ n ih =>
    show payloadAt ((n + 1) + 1) = _
    rw [payloadAt, Function.iterate_succ_apply']
    rw [show nextPayload^[n + 1] initPayload = payloadAt (n + 1) from rfl, ih]
    simp [nextPayload, Nat.succ_mul]

/-- Claim C5.  The request payload sequence: the driver's `k`-th request
(0-based) carries `payloadAt k`; request 0 is the initial action with
offset 0, request 1 is the "next" action with offset still 0 (the
single reset), and request `k - 1` for `k ≥ 3` (i.e. the `k`-th request
1-based) carries offset `(k - 2) * 100`. -/
theorem payload_sequence_spec :
    (∀ (now : List Char) (pages : List Response),
      (drive now pages initState initPayload).sent =
        (List.range (drive now pages initState initPayload).sent.length).map payloadAt) ∧
    payloadAt 0 = ⟨("update_segment").toList, 0⟩ ∧
    payloadAt 1 = ⟨("next").toList, 0⟩ ∧
    (∀ k : Nat, 3 ≤ k → payloadAt (k - 1) = ⟨("next").toList, (k - 2) * 100⟩) := by
  refine ⟨?_, by decide, by decide, ?_⟩
  · intro now pages
    have h := drive_sent_iterates now pages initState initPayload
    have hfun : (fun i => nextPayload^[i] initPayload) = payloadAt := rfl
    rw [hfun] at h
    exact h
  · intro k hk
    have h2 : k - 1 = (k - 2) + 1 := by omega
    rw [h2]
    exact payloadAt_succ (k - 2)

theorem payload_sequence_spec_witness :
    (drive demoNow [demoEmptyPage] initState initPayload).sent =
      (List.range (drive demoNow [demoEmptyPage] initState initPayload).sent.length).map
        payloadAt ∧
    payloadAt 2 = ⟨("next").toList, 100⟩ :=
  ⟨payload_sequence_spec.1 demoNow [demoEmptyPage],
   payload_sequence_spec.2.2.2 3 (by decide)⟩

/-- Only the Progress branch (guarded by `progressMark`) can classify a
line as a Progress field. -/
lemma classify_no_guard_not_progress (ln : List Char)
    (h : hasSub ln progressMark = false) (c t : Int) :
    classifyLine ln ≠ Field.progress c t := by
  intro hEq
  unfold classifyLine at hEq
  rw [h] at hEq
  simp only [Bool.false_eq_true, if_false] at hEq
  split_ifs at hEq
  all_goals try split at hEq
  all_goals simp_all

/-- A line that is not a Progress line and raises no exception is
processed successfully and leaves the pagination flag unchanged. -/
lemma processLine_not_progress (now ln : List Char) (st : ScanState)
    (hnp : hasSub ln progressMark = false)
    (hok1 : classifyLine ln ≠ Field.valueError)
    (hok2 : classifyLine ln ≠ Field.dayTime []) :
    ∃ st', processLine now ln st = Except.ok st' ∧
      st'.keepRequesting = st.keepRequesting := by
  unfold processLine
  cases hcl : classifyLine ln with
  | progress c t => exact absurd hcl (classify_no_guard_not_progress ln hnp c t)
  | heading code name => exact ⟨_, rfl, rfl⟩
  | number num => exact ⟨_, rfl, rfl⟩
  | instructors es => exact ⟨_, rfl, rfl⟩
  | location loc => exact ⟨_, rfl, rfl⟩
  | dayTime ts =>
    rcases ts with _ | ⟨t0, _ | ⟨t1, rest⟩⟩
    · exact absurd hcl hok2
    · exact ⟨_, rfl, rfl⟩
    · exact ⟨_, rfl, rfl⟩
  | mode m =>
    by_cases hrc : st.requireComma
    · refine ⟨{ st with
          requireComma := false,
          out := st.out ++ ("\n").toList ++ modeEmit now m }, ?_, rfl⟩
      simp [applyField, hrc]
    · refine ⟨{ st with out := st.out ++ modeEmit now m }, ?_, rfl⟩
      simp [applyField, hrc]
  | inert => exact ⟨_, rfl, rfl⟩
  | valueError => exact absurd hcl hok1

/-- Effect of a line classified as Progress: the flag is cleared exactly
when `current ≥ total`, nothing else changes. -/
lemma processLine_progress (now ln : List Char) (st : ScanState) (c t : Int)
    (hcl : classifyLine ln = Field.progress c t) :
    processLine now ln st =
      Except.ok (if t ≤ c then { st with keepRequesting := false } else st) := by
  simp [processLine, hcl, applyField]

/-- A block of lines with no Progress line and no exception processes
cleanly and preserves the pagination flag. -/
lemma processLines_no_progress (now : List Char) :
    ∀ (lines : List (List Char)) (st : ScanState),
      (∀ ln ∈ lines, hasSub ln progressMark = false ∧
        classifyLine ln ≠ Field.valueError ∧ classifyLine ln ≠ Field.dayTime []) →
      ∃ st', processLines now lines st = (st', Option.none) ∧
        st'.keepRequesting = st.keepRequesting := by
  intro lines
  induction lines with
  | nil => exact fun st _ => ⟨st, rfl, rfl⟩
  | cons ln rest ih =>
    intro st h
    obtain ⟨h1, h2, h3⟩ := h ln (List.mem_cons_self ln rest)
    obtain ⟨st1, hstep, hkeep1⟩ := processLine_not_progress now ln st h1 h2 h3
    obtain ⟨st', hrest, hkeep'⟩ := ih st1 (fun l hl => h l (List.mem_cons_of_mem ln hl))
    exact ⟨st', by simp [processLines, hstep, hrest], hkeep'.trans hkeep1⟩

/-- Processing a page whose lines contain exactly one Progress line,
classifying to `(c, t)`, with no exception anywhere: it succeeds and
leaves the pagination flag equal to `c < t` (the loop's sole
continuation condition), regardless of where in the page the Progress
line sits. -/
lemma processLines_one_progress (now : List Char) :
    ∀ (lines : List (List Char)) (st : ScanState) (c t : Int),
      st.keepRequesting = true →
      (lines.filter (fun ln => hasSub ln progressMark)).map classifyLine =
        [Field.progress c t] →
      (∀ ln ∈ lines, classifyLine ln ≠ Field.valueError ∧
        classifyLine ln ≠ Field.dayTime []) →
      ∃ st', processLines now lines st = (st', Option.none) ∧
        st'.keepRequesting = decide (c < t) := by
  intro lines
  induction lines with
  | nil => intro st c t _ hfilter _; simp at hfilter
  | cons ln rest ih =>
    intro st c t hkeep hfilter hok
    by_cases hf : hasSub ln progressMark
    · -- `ln` is the unique Progress line; the rest has none.
      rw [List.filter_cons_of_pos (by simp [hf])] at hfilter
      simp only [List.map_cons, List.cons.injEq] at hfilter
      obtain ⟨hcl, hrest0⟩ := hfilter
      have hrestnil : rest.filter (fun l => hasSub l progressMark) = [] :=
        List.map_eq_nil_iff.mp hrest0
      have hrestfacts : ∀ l ∈ rest, hasSub l progressMark = false ∧
          classifyLine l ≠ Field.valueError ∧ classifyLine l ≠ Field.dayTime [] := by
        intro l hl
        have hguard : hasSub l progressMark = false := by
          have := List.filter_eq_nil_iff.mp hrestnil l hl
          simpa using this
        exact ⟨hguard, (hok l (List.mem_cons_of_mem ln hl)).1,
          (hok l (List.mem_cons_of_mem ln hl)).2⟩
      have hstep := processLine_progress now ln st c t hcl
      obtain ⟨st', hrest, hkeep'⟩ := processLines_no_progress now rest
        (if t ≤ c then { st with keepRequesting := false } else st) hrestfacts
      refine ⟨st', by simp [processLines, hstep, hrest], ?_⟩
      rw [hkeep']
      by_cases hct : t ≤ c
      · simp [hct, not_lt.mpr hct]
      · simp [hct, hkeep, lt_of_not_le hct]
    · -- an inert (non-Progress) line in front
      have hf' : hasSub ln progressMark = false := by simpa using hf
      rw [List.filter_cons_of_neg (by simp [hf'])] at hfilter
      obtain ⟨st1, hstep, hkeep1⟩ := processLine_not_progress now ln st hf'
        (hok ln (List.mem_cons_self ln rest)).1 (hok ln (List.mem_cons_self ln rest)).2
      obtain ⟨st', hrest, hkeep'⟩ := ih st1 c t (hkeep1.trans hkeep) hfilter
        (fun l hl => hok l (List.mem_cons_of_mem ln hl))
      exact ⟨st', by simp [processLines, hstep, hrest], hkeep'⟩

/-- A page is good for pagination analysis when its status is 200, its
lines hold exactly one Progress line (classifying to `(c, t)`) and no
line raises. -/
def pageGood (r : Response) (c t : Int) : Prop :=
  r.status = 200 ∧
  (r.lines.filter (fun ln => hasSub ln progressMark)).map classifyLine =
    [Field.progress c t] ∧
  ∀ ln ∈ r.lines, classifyLine ln ≠ Field.valueError ∧
    classifyLine ln ≠ Field.dayTime []

instance pageGoodDecidable (r : Response) (c t : Int) : Decidable (pageGood r c t) := by
  unfold pageGood
  infer_instance

/-- Driver induction: pages whose Progress says `current < total` each
trigger one further request; the first page with `current ≥ total` is
the last request. -/
lemma drive_stops_aux (now : List Char) :
    ∀ (pre : List (Response × Int × Int)) (r : Response) (c t : Int)
      (rest : List Response) (st : ScanState) (p : Payload),
      st.keepRequesting = true →
      (∀ x ∈ pre, pageGood x.1 x.2.1 x.2.2 ∧ x.2.1 < x.2.2) →
      pageGood r c t → t ≤ c →
      (drive now (pre.map Prod.fst ++ r :: rest) st p).err = Option.none ∧
      (drive now (pre.map Prod.fst ++ r :: rest) st p).sent.length = pre.length + 1 := by
  intro pre
  induction pre with
  | nil =>
    intro r c t rest st p hkeep _ hr hstop
    obtain ⟨hs, hfilter, hok⟩ := hr
    obtain ⟨st', hproc, hkeep'⟩ :=
      processLines_one_progress now r.lines st c t hkeep hfilter hok
    have hstopped : st'.keepRequesting = false := by
      rw [hkeep']
      simp [not_lt.mpr hstop]
    have hnext := drive_not_keep now rest st' (nextPayload p) hstopped
    constructor <;> simp [drive, hkeep, hs, hproc, hnext]
  | cons x pre ih =>
    intro r c t rest st p hkeep hpre hr hstop
    obtain ⟨⟨hs, hfilter, hok⟩, hlt⟩ := hpre x (List.mem_cons_self x pre)
    obtain ⟨st', hproc, hkeep'⟩ :=
      processLines_one_progress now x.1.lines st x.2.1 x.2.2 hkeep hfilter hok
    have hkeep'' : st'.keepRequesting = true := by
      rw [hkeep']
      simp [hlt]
    have hrec := ih r c t rest st' (nextPayload p) hkeep''
      (fun y hy => hpre y (List.mem_cons_of_mem x hy)) hr hstop
    have heq : drive now (x.1 :: (pre.map Prod.fst ++ r :: rest)) st p =
        ⟨(drive now (pre.map Prod.fst ++ r :: rest) st' (nextPayload p)).err,
         (drive now (pre.map Prod.fst ++ r :: rest) st' (nextPayload p)).st,
         p :: (drive now (pre.map Prod.fst ++ r :: rest) st' (nextPayload p)).sent⟩ := by
      simp [drive, hkeep, hs, hproc]
    constructor
    · show (drive now (x.1 :: (pre.map Prod.fst ++ r :: rest)) st p).err = Option.none
      rw [heq]
      exact hrec.1
    · show (drive now (x.1 :: (pre.map Prod.fst ++ r :: rest)) st p).sent.length =
        (x :: pre).length + 1
      rw [heq]
      simp only [List.length_cons]
      rw [hrec.2]

/-- Claim C6.  With each page carrying exactly one parsed Progress line,
the loop issues another request precisely while `current < total`: if
the pages before the stopping page all report `current < total` and the
stopping page reports `current ≥ total`, the driver issues exactly
`pre.length + 1` requests — it finishes that page and stops without
error, whatever responses would have followed. -/
theorem pagination_stops_at_first_complete_page (now : List Char)
    (pre : List (Response × Int × Int)) (r : Response) (c t : Int)
    (rest : List Response)
    (hpre : ∀ x ∈ pre, pageGood x.1 x.2.1 x.2.2 ∧ x.2.1 < x.2.2)
    (hr : pageGood r c t) (hstop : t ≤ c) :
    (drive now (pre.map Prod.fst ++ r :: rest) initState initPayload).err =
      Option.none ∧
    (drive now (pre.map Prod.fst ++ r :: rest) initState initPayload).sent.length =
      pre.length + 1 :=
  drive_stops_aux now pre r c t rest initState initPayload rfl hpre hr hstop

theorem pagination_stops_at_first_complete_page_witness :
    (drive demoNow [demoProgPage1, demoProgPage2, demoProgPage3]
      initState initPayload).err = Option.none ∧
    (drive demoNow [demoProgPage1, demoProgPage2, demoProgPage3]
      initState initPayload).sent.length = 3 :=
  pagination_stops_at_first_complete_page demoNow
    [(demoProgPage1, 100, 300), (demoProgPage2, 200, 300)] demoProgPage3 300 300 []
    (by decide) (by decide) (by decide)

/-- Claim C9.  The final corrective pass rewrites exactly one byte:
(1) it preserves the file length; (2) every byte other than the one at
position `length - 10` is unchanged; (3) the byte at `length - 10`
becomes a space.  The overwrite is unconditional on content:
(4) whenever at least one record was emitted the body ends with the
record close `"\x7d,\n"`, so the patched byte is the trailing comma
separator; (5) with zero records the patched byte is the opening
bracket of the classes array.  On full concrete runs, (6) the
zero-record run produces exactly the patched header+footer document,
(7) which is not bracket-balanced (not well-formed), while (8) a
one-record run's output is bracket-balanced. -/
theorem final_patch_one_byte :
    (∀ doc : List Char, (fixup doc).length = doc.length) ∧
    (∀ (doc : List Char) (i : Nat) (cdef : Char), i ≠ doc.length - 10 →
      (fixup doc).getD i cdef = doc.getD i cdef) ∧
    (∀ doc : List Char, 10 ≤ doc.length →
      (fixup doc).getD (doc.length - 10) '\x00' = ' ') ∧
    (∀ body : List Char,
      (headerText ++ (body ++ ("\x7d,\n").toList) ++ footerText).getD
        ((headerText ++ (body ++ ("\x7d,\n").toList) ++ footerText).length - 10)
        '\x00' = ',') ∧
    ((headerText ++ footerText).getD ((headerText ++ footerText).length - 10)
      '\x00' = '[') ∧
    (scrapeRun demoNow [demoEmptyPage]).fileContent = fixup (headerText ++ footerText) ∧
    specBalanced (scrapeRun demoNow [demoEmptyPage]).fileContent = false ∧
    specBalanced (scrapeRun demoNow [demoRecordPage]).fileContent = true := by
  refine ⟨?_, ?_, ?_, ?_, by decide, by decide, by decide, by decide⟩
  · intro doc
    simp [fixup]
  · intro doc i cdef hne
    rw [fixup, List.getD_eq_getD_get?, List.getD_eq_getD_get?,
      List.get?_eq_getElem?, List.get?_eq_getElem?,
      List.getElem?_set_ne (fun h => hne h.symm)]
  · intro doc hlen
    have hlt : doc.length - 10 < doc.length := by omega
    rw [fixup, List.getD_eq_getD_get?, List.get?_eq_getElem?,
      List.getElem?_set_eq_of_lt _ hlt]
    rfl
  · intro body
    have ht3 : ("\x7d,\n").toList = ['\x7d', ',', '\n'] := rfl
    have hsplit : headerText ++ (body ++ ("\x7d,\n").toList) ++ footerText =
        (headerText ++ body ++ ['\x7d']) ++ (',' :: '\n' :: footerText) := by
      rw [ht3]
      simp
    rw [hsplit]
    have hlen : ((headerText ++ body ++ ['\x7d']) ++ (',' :: '\n' :: footerText)).length - 10 =
        (headerText ++ body ++ ['\x7d']).length := by
      simp [footerText]
      omega
    rw [hlen, List.getD_append_right _ _ _ _ (le_refl _), Nat.sub_self]
    rfl

theorem final_patch_one_byte_witness :
    (fixup (headerText ++ footerText)).getD 0 '\x00' =
      (headerText ++ footerText).getD 0 '\x00' ∧
    (fixup (headerText ++ footerText)).getD
      ((headerText ++ footerText).length - 10) '\x00' = ' ' ∧
    (headerText ++ ([] ++ ("\x7d,\n").toList) ++ footerText).getD
      ((headerText ++ ([] ++ ("\x7d,\n").toList) ++ footerText).length - 10)
      '\x00' = ',' :=
  ⟨final_patch_one_byte.2.1 (headerText ++ footerText) 0 '\x00' (by decide),
   final_patch_one_byte.2.2.1 (headerText ++ footerText) (by decide),
   final_patch_one_byte.2.2.2.1 []⟩

end ClassScrape
